import Mathlib

/-!
Verification of the two MIR peephole passes in
`src/librustc_mir/transform/simplify_try.rs`:
`SimplifyArmIdentity` (arm-identity simplification) and `SimplifyBranchSame`
(branch-same merging), together with their shared pattern matchers.

The data model (locals, places, statements, terminators, basic blocks) and
every operation are translated directly from the Rust source.  Machine
details that the passes never inspect (the concrete type representation,
source spans) are opaque naturals.  Rust panics (out-of-bounds indexing,
`unreachable!`) are modelled as `Option.none`.
-/

namespace SimplifyTry

/-- A MIR local (`rustc_mir::Local`): an opaque index into the local table. -/
abbrev Local := Nat

/-- A variant index (`rustc_target::abi::VariantIdx`). -/
abbrev VariantIdx := Nat

/-- A field index (`rustc::mir::Field`). -/
abbrev Field := Nat

/-- An opaque nominal type (`Ty`); the passes only compare types for equality. -/
abbrev Ty := Nat

/-- A place projection element; the passes only distinguish variant downcasts
and field accesses, all other projections are `otherProj`. -/
inductive ProjectionElem where
  | downcast (var_idx : VariantIdx)
  | field (f : Field) (ty : Ty)
  | otherProj (code : Nat)
deriving DecidableEq

/-- A place: a base local plus a projection list (`rustc::mir::Place`). -/
structure Place where
  base_local : Local
  projection : List ProjectionElem
deriving DecidableEq

/-- `Place::as_local`: the base local when there are no projections. -/
def Place.as_local (p : Place) : Option Local :=
  if p.projection = [] then some p.base_local else none

/-- `Place::from(local)`: the whole-local place. -/
def Place.ofLocal (l : Local) : Place := ⟨l, []⟩

/-- An operand (`rustc::mir::Operand`): copy/move of a place, or a constant. -/
inductive Operand where
  | copy (p : Place)
  | move (p : Place)
  | const (c : Nat)
deriving DecidableEq

/-- An rvalue; the passes match only `Rvalue::Use`, all other rvalue kinds
are collapsed into `otherRvalue`. -/
inductive Rvalue where
  | use (op : Operand)
  | otherRvalue (code : Nat)
deriving DecidableEq

/-- A statement kind (`rustc::mir::StatementKind`); kinds that the passes
never match on specifically are collapsed into `otherStmtKind`. -/
inductive StatementKind where
  | assign (place : Place) (rvalue : Rvalue)
  | setDiscriminant (place : Place) (variant_index : VariantIdx)
  | storageLive (l : Local)
  | storageDead (l : Local)
  | inlineAsm (code : Nat)
  | nop
  | otherStmtKind (code : Nat)
deriving DecidableEq

/-- Opaque source-location metadata (`SourceInfo`). -/
structure SourceInfo where
  span : Nat
deriving DecidableEq

/-- A statement: source info plus kind. -/
structure Statement where
  source_info : SourceInfo
  kind : StatementKind
deriving DecidableEq

/-- `Statement::make_nop`: replace the kind with `Nop`. -/
def Statement.make_nop (s : Statement) : Statement := { s with kind := .nop }

/-- The `retain` predicate: `stmt.kind != StatementKind::Nop`. -/
def notNop (stmt : Statement) : Bool := stmt.kind ≠ .nop

/-- A terminator kind; only the kinds this file matches on are distinguished. -/
inductive TerminatorKind where
  | goto (target : Nat)
  | switchInt (discr : Operand) (values : List Nat) (targets : List Nat)
  | unreachable
  | ret
  | otherTermKind (code : Nat)
deriving DecidableEq

/-- A terminator: source info plus kind. -/
structure Terminator where
  source_info : SourceInfo
  kind : TerminatorKind
deriving DecidableEq

/-- A basic block: statement list, terminator, cleanup flag
(`rustc::mir::BasicBlockData`). -/
structure BasicBlockData where
  statements : List Statement
  terminator : Terminator
  is_cleanup : Bool
deriving DecidableEq

/-- The variant-field descriptor `VarField` from the source. -/
structure VarField where
  field : Field
  field_ty : Ty
  var_idx : VariantIdx
deriving DecidableEq

/-- `match_variant_field_place`: match `((_LOCAL as Variant).FIELD: TY)`, i.e.
a place whose projection is exactly a downcast followed by a field access. -/
def match_variant_field_place (place : Place) : Option (Local × VarField) :=
  match place.projection with
  | [ProjectionElem.downcast var_idx, ProjectionElem.field f ty] =>
    some (place.base_local, ⟨f, ty, var_idx⟩)
  | _ => none

/-- `match_get_variant_field`: match `_LOCAL_INTO = ((_LOCAL_FROM as Variant).FIELD: TY)`,
reading by copy or by move. -/
def match_get_variant_field (stmt : Statement) : Option (Local × Local × VarField) :=
  match stmt.kind with
  | .assign place_into (.use (.copy pf)) | .assign place_into (.use (.move pf)) => do
    let local_into ← place_into.as_local
    let (local_from, vf) ← match_variant_field_place pf
    some (local_into, local_from, vf)
  | _ => none

/-- `match_set_variant_field`: match `((_LOCAL_FROM as Variant).FIELD: TY) = move _LOCAL_INTO`. -/
def match_set_variant_field (stmt : Statement) : Option (Local × Local × VarField) :=
  match stmt.kind with
  | .assign place_from (.use (.move place_into)) => do
    let local_into ← place_into.as_local
    let (local_from, vf) ← match_variant_field_place place_from
    some (local_into, local_from, vf)
  | _ => none

/-- `match_set_discr`: match `discriminant(_LOCAL_TO_SET) = VAR_IDX`. -/
def match_set_discr (stmt : Statement) : Option (Local × VariantIdx) :=
  match stmt.kind with
  | .setDiscriminant place variant_index => do
    let l ← place.as_local
    some (l, variant_index)
  | _ => none

/-- The candidate record `ArmIdentityInfo` assembled by the scanner. -/
structure ArmIdentityInfo where
  local_temp_0 : Local
  local_1 : Local
  vf_s0 : VarField
  field_tmp_assignments : List (Local × Local)
  local_tmp_s1 : Local
  local_0 : Local
  vf_s1 : VarField
  set_discr_local : Local
  set_discr_var_idx : VariantIdx
  stmt_to_overwrite : Nat
  source_info : SourceInfo
  storage_stmts : List (Nat × Nat × Local)
  stmts_to_remove : List Nat
deriving DecidableEq

/-- The mutable accumulator of `get_arm_identity_info`'s single scan,
one field per local variable of the Rust function. -/
structure ScanState where
  local_tmp_s0 : Option Local
  local_1 : Option Local
  vf_s0 : Option VarField
  tmp_assigns : List (Local × Local)
  local_tmp_s1 : Option Local
  local_0 : Option Local
  vf_s1 : Option VarField
  set_discr_local : Option Local
  set_discr_var_idx : Option VariantIdx
  starting_stmt : Option Nat
  discr_stmt : Option Statement
  nop_stmts : List Nat
  storage_live_stmts : List (Nat × Local)
  storage_dead_stmts : List (Nat × Local)
deriving DecidableEq

/-- The scanner's initial state: every accumulator empty. -/
def initScan : ScanState :=
  ⟨none, none, none, [], none, none, none, none, none, none, none, [], [], []⟩

/-- One iteration of the `for (stmt_idx, stmt)` loop of `get_arm_identity_info`.
`none` models an early `return None` (the `?` operator). -/
def scanStep (stmt_idx : Nat) (stmt : Statement) (s : ScanState) : Option ScanState :=
  match stmt.kind with
  | .storageLive l =>
    some { s with storage_live_stmts := s.storage_live_stmts ++ [(stmt_idx, l)] }
  | .storageDead l =>
    some { s with storage_dead_stmts := s.storage_dead_stmts ++ [(stmt_idx, l)] }
  | _ =>
    if s.local_tmp_s0 = none ∧ s.local_1 = none ∧ s.vf_s0 = none then
      match match_get_variant_field stmt with
      | none => none
      | some (a, b, vf) =>
        some { s with local_tmp_s0 := some a, local_1 := some b, vf_s0 := some vf,
                      starting_stmt := some stmt_idx }
    else
      match stmt.kind with
      | .assign place (.use op) =>
        match place.as_local with
        | some l =>
          match op with
          | .copy p | .move p =>
            match p.as_local with
            | some pl =>
              some { s with tmp_assigns := s.tmp_assigns ++ [(l, pl)],
                            nop_stmts := s.nop_stmts ++ [stmt_idx] }
            | none => none
          | .const _ => none
        | none =>
          if s.local_tmp_s1 = none ∧ s.local_0 = none ∧ s.vf_s1 = none then
            match match_set_variant_field stmt with
            | none => none
            | some (a, b, vf) =>
              some { s with local_tmp_s1 := some a, local_0 := some b, vf_s1 := some vf,
                            nop_stmts := s.nop_stmts ++ [stmt_idx] }
          else some s
      | _ =>
        if s.set_discr_local = none ∧ s.set_discr_var_idx = none then
          match match_set_discr stmt with
          | none => none
          | some (l, vi) =>
            some { s with set_discr_local := some l, set_discr_var_idx := some vi,
                          discr_stmt := some stmt, nop_stmts := s.nop_stmts ++ [stmt_idx] }
        else some s

/-- The whole statement loop of `get_arm_identity_info`, starting at index `i`. -/
def scanAux (i : Nat) (stmts : List Statement) (s : ScanState) : Option ScanState :=
  match stmts with
  | [] => some s
  | stmt :: rest =>
    match scanStep i stmt s with
    | none => none
    | some s1 => scanAux (i + 1) rest s1

/-- `Vec::swap_remove i`: replace element `i` by the last element and pop. -/
def swapRemove (l : List α) (i : Nat) : List α :=
  match l.getLast? with
  | none => l
  | some last => (l.set i last).dropLast

/-- `iter().rposition(...)`: index of the last entry recorded for local `x`. -/
def rpositionLocal (deads : List (Nat × Local)) (x : Local) : Option Nat :=
  match deads.reverse.findIdx? (fun p => p.2 == x) with
  | some j => some (deads.length - 1 - j)
  | none => none

/-- The storage-marker pairing loop of `get_arm_identity_info`: for each
recorded `StorageLive`, in order, pair it with the last-recorded `StorageDead`
of the same local, removing that dead from further consideration. -/
def pairStorage (lives : List (Nat × Local)) (deads : List (Nat × Local))
    (acc : List (Nat × Nat × Local)) : List (Nat × Nat × Local) :=
  match lives with
  | [] => acc
  | (live_idx, live_local) :: rest =>
    match rpositionLocal deads live_local with
    | some i =>
      match deads.get? i with
      | some (dead_idx, _) =>
        pairStorage rest (swapRemove deads i) (acc ++ [(live_idx, dead_idx, live_local)])
      | none => pairStorage rest deads acc
    | none => pairStorage rest deads acc

/-- `get_arm_identity_info`: the single in-order scan over a block's statements
followed by storage pairing; `none` when the block yields no candidate. -/
def get_arm_identity_info (stmts : List Statement) : Option ArmIdentityInfo :=
  match scanAux 0 stmts initScan with
  | none => none
  | some s =>
    match s.local_tmp_s0, s.local_1, s.vf_s0, s.local_tmp_s1, s.local_0,
        s.vf_s1, s.set_discr_local, s.set_discr_var_idx, s.starting_stmt,
        s.discr_stmt with
    | some local_tmp_s0, some local_1, some vf_s0, some local_tmp_s1,
      some local_0, some vf_s1, some set_discr_local, some set_discr_var_idx,
      some starting_stmt, some discr_stmt =>
      some { local_temp_0 := local_tmp_s0
             local_1 := local_1
             vf_s0 := vf_s0
             field_tmp_assignments := s.tmp_assigns
             local_tmp_s1 := local_tmp_s1
             local_0 := local_0
             vf_s1 := vf_s1
             set_discr_local := set_discr_local
             set_discr_var_idx := set_discr_var_idx
             stmt_to_overwrite := starting_stmt
             source_info := discr_stmt.source_info
             storage_stmts := pairStorage s.storage_live_stmts s.storage_dead_stmts []
             stmts_to_remove := s.nop_stmts }
    | _, _, _, _, _, _, _, _, _, _ => none

/-- The chain-walking loop of `optimization_applies`: `last` starts as the
first link's source; each link's source must equal `last`, which then becomes
that link's destination.  Returns the final `last_assigned_to`. -/
def chainFold (links : List (Local × Local)) (last : Local) : Option Local :=
  match links with
  | [] => some last
  | (l, r) :: rest => if r ≠ last then none else chainFold rest l

/-- `optimization_applies`.  `some true`/`some false` are the function's
accept/reject results; `none` models the panic reached when
`field_tmp_assignments` is empty: the `len() == 0` test only emits a trace
message without returning, and `field_tmp_assignments[0]` then indexes an
empty vector. -/
def optimization_applies (opt_info : ArmIdentityInfo) (local_decls : Local → Ty) :
    Option Bool :=
  if opt_info.local_0 = opt_info.local_1 then
    some false
  else if opt_info.vf_s0 ≠ opt_info.vf_s1 then
    some false
  else if local_decls opt_info.local_0 ≠ local_decls opt_info.local_1 then
    some false
  else if (opt_info.local_0, opt_info.vf_s0.var_idx) ≠
      (opt_info.set_discr_local, opt_info.set_discr_var_idx) then
    some false
  else
    match opt_info.field_tmp_assignments with
    | [] => none
    | (_, r0) :: _ =>
      let source_local := r0
      match chainFold opt_info.field_tmp_assignments r0 with
      | none => some false
      | some last_assigned_to =>
        if source_local ≠ opt_info.local_temp_0 then some false
        else if last_assigned_to ≠ opt_info.local_tmp_s1 then some false
        else some true

/-- The nested loop of `run_pass` that extends `stmts_to_remove` with the
storage-marker pairs keyed by a chain-link local: for every chain link
`(left, right)` and every paired `(live_idx, dead_idx, local)`, if the paired
local equals `left` or `right`, push both marker indices. -/
def extraStorageRemovals (links : List (Local × Local))
    (storage_stmts : List (Nat × Nat × Local)) : List Nat :=
  links.foldl
    (fun acc link =>
      storage_stmts.foldl
        (fun acc2 triple =>
          if triple.2.2 = link.1 ∨ triple.2.2 = link.2 then
            acc2 ++ [triple.1, triple.2.1]
          else acc2)
        acc)
    []

/-- The new statement written over the original read: a whole-value move
`local_0 = move local_1` carrying the discriminant statement's source info. -/
def overwriteStmt (si : SourceInfo) (local_0 local_1 : Local) : Statement :=
  ⟨si, .assign (Place.ofLocal local_0) (.use (.move (Place.ofLocal local_1)))⟩

/-- The in-place mutation phase of the rewrite, statement by statement with
its index: the statement at `stmt_to_overwrite` is replaced by the move (and
takes the discriminant statement's source info), then every statement whose
index is in the removal set is made a `Nop` (the Rust code overwrites first
and nops afterwards, so a removal index wins if the two coincide). -/
def overwriteAndNop (k : Nat) (si : SourceInfo) (local_0 local_1 : Local)
    (removal : List Nat) (i : Nat) (stmts : List Statement) : List Statement :=
  match stmts with
  | [] => []
  | stmt :: rest =>
    let s1 := if i = k then overwriteStmt si local_0 local_1 else stmt
    let s2 := if removal.contains i then s1.make_nop else s1
    s2 :: overwriteAndNop k si local_0 local_1 removal (i + 1) rest

/-- The body of `SimplifyArmIdentity::run_pass` for one basic block: scan,
check, then rewrite.  `none` models a panic: either the `unreachable!` arm
reached when the statement to overwrite is not an `Assign` (or its index is
out of bounds), or the checker's empty-chain panic. -/
def simplifyArmIdentityBlock (local_decls : Local → Ty) (bb : BasicBlockData) :
    Option BasicBlockData :=
  match get_arm_identity_info bb.statements with
  | none => some bb
  | some opt_info =>
    match optimization_applies opt_info local_decls with
    | none => none
    | some false => some bb
    | some true =>
      let removal := opt_info.stmts_to_remove ++
        extraStorageRemovals opt_info.field_tmp_assignments opt_info.storage_stmts
      match bb.statements.get? opt_info.stmt_to_overwrite with
      | some ⟨_, .assign _ _⟩ =>
        let mutated := overwriteAndNop opt_info.stmt_to_overwrite opt_info.source_info
          opt_info.local_0 opt_info.local_1 removal 0 bb.statements
        some { bb with statements := mutated.filter notNop }
      | _ => none

/-- `SimplifyArmIdentity::run_pass` over the whole body: each block is
simplified independently, in order; a panic in any block aborts the pass. -/
def runArmIdentityPass (local_decls : Local → Ty) :
    List BasicBlockData → Option (List BasicBlockData)
  | [] => some []
  | bb :: rest =>
    match simplifyArmIdentityBlock local_decls bb with
    | none => none
    | some bb1 =>
      match runArmIdentityPass local_decls rest with
      | none => none
      | some rest1 => some (bb1 :: rest1)

/-- The reachability filter of `SimplifyBranchSame`: a successor survives if
its terminator is not `Unreachable`, or if it contains an inline-asm
statement (which could abort before the `unreachable` is reached). -/
def isReachableFilter (bb : BasicBlockData) : Bool :=
  decide (bb.terminator.kind ≠ .unreachable) ||
    bb.statements.any (fun stmt =>
      match stmt.kind with
      | .inlineAsm _ => true
      | _ => false)

/-- `Iterator::eq_by` on statement lists, comparing statement kinds: the
lists must have equal length and element-wise equal kinds (source info is
not compared). -/
def eqByKind : List Statement → List Statement → Bool
  | [], [] => true
  | x :: xs, y :: ys => decide (x.kind = y.kind) && eqByKind xs ys
  | _, _ => false

/-- The per-pair block-equivalence test of `SimplifyBranchSame`: same cleanup
classification, equal terminator kinds (all fields), and statement kinds
equal element-wise. -/
def bbEquiv (bb_l bb_r : BasicBlockData) : Bool :=
  bb_l.is_cleanup == bb_r.is_cleanup &&
    decide (bb_l.terminator.kind = bb_r.terminator.kind) &&
    eqByKind bb_l.statements bb_r.statements

/-- `tuple_windows().all(...)`: every adjacent pair satisfies `bbEquiv`;
vacuously true for zero or one block. -/
def pairwiseAll : List BasicBlockData → Bool
  | [] => true
  | [_] => true
  | a :: b :: rest => bbEquiv a b && pairwiseAll (b :: rest)

/-- The body of `SimplifyBranchSame::run_pass` for one basic block, given the
current list of blocks: for a `SwitchInt` terminator, compute the surviving
(filter-passing) successors, pick `bb_first` (first survivor, else
`targets[0]`), and replace the terminator by `Goto bb_first` exactly when all
adjacent surviving pairs are equivalent; other terminators are untouched.
`none` models a panic: `targets[0]` on an empty target list (it is evaluated
unconditionally under `unwrap_or`) or an out-of-range block index. -/
def resolveTargets (bbs : List BasicBlockData) : List Nat → Option (List BasicBlockData)
  | [] => some []
  | t :: ts =>
    match bbs.get? t with
    | none => none
    | some b =>
      match resolveTargets bbs ts with
      | none => none
      | some bs => some (b :: bs)

def simplifyBranchSameBlock (bbs : List BasicBlockData) (bb : BasicBlockData) :
    Option TerminatorKind :=
  match bb.terminator.kind with
  | .switchInt discr values targets =>
    match targets with
    | [] => none
    | t0 :: rest =>
      match resolveTargets bbs (t0 :: rest) with
      | none => none
      | some blocks =>
        let reachable := ((t0 :: rest).zip blocks).filter (fun p => isReachableFilter p.2)
        let bb_first := (reachable.head?.map Prod.fst).getD t0
        let all_successors_equivalent := pairwiseAll (reachable.map Prod.snd)
        if all_successors_equivalent then some (.goto bb_first)
        else some (.switchInt discr values (t0 :: rest))
  | k => some k

/-!
Execution semantics

A small-step value semantics for the statement forms above, used to test
observable equivalence of a block before and after the arm-identity rewrite.
A local holds either an enum value (a discriminant plus a field list) or a
primitive.  `none` models undefined behaviour or an unsupported operation.
-/

/-- A runtime value: an enum value carrying its discriminant and its scalar
fields, or a primitive scalar. -/
inductive Val where
  | enumv (discr : Nat) (fields : List Nat)
  | prim (n : Nat)
deriving DecidableEq

/-- A memory: the value of every local. -/
def Mem := Local → Val

/-- Point update of a memory. -/
def Mem.update (m : Mem) (l : Local) (v : Val) : Mem :=
  fun x => if x = l then v else m x

/-- Read a place: the whole local, or — for `((l as V).F)` — field `F` of the
enum in `l`, defined only when the stored discriminant is `V`. -/
def readPlace (m : Mem) (p : Place) : Option Val :=
  match p.projection with
  | [] => some (m p.base_local)
  | [ProjectionElem.downcast var_idx, ProjectionElem.field f _] =>
    match m p.base_local with
    | .enumv d fields => if d = var_idx then (fields.get? f).map Val.prim else none
    | _ => none
  | _ => none

/-- Write a place: overwrite the whole local, or — for `((l as V).F)` —
replace field `F` of the enum in `l`, leaving the discriminant alone (the
write may precede the matching `SetDiscriminant`). -/
def writePlace (m : Mem) (p : Place) (v : Val) : Option Mem :=
  match p.projection with
  | [] => some (m.update p.base_local v)
  | [ProjectionElem.downcast _, ProjectionElem.field f _] =>
    match m p.base_local, v with
    | .enumv d fields, .prim n =>
      if f < fields.length then some (m.update p.base_local (.enumv d (fields.set f n)))
      else none
    | _, _ => none
  | _ => none

/-- Evaluate an operand: copy and move both read the place. -/
def evalOperand (m : Mem) (op : Operand) : Option Val :=
  match op with
  | .copy p => readPlace m p
  | .move p => readPlace m p
  | .const c => some (.prim c)

/-- Execute one statement.  Storage markers and `Nop` have no value-level
effect; `SetDiscriminant` retags the enum in the local, keeping its fields. -/
def execStmt (m : Mem) (stmt : Statement) : Option Mem :=
  match stmt.kind with
  | .assign p (.use op) => do
    let v ← evalOperand m op
    writePlace m p v
  | .setDiscriminant p var_idx =>
    match p.projection with
    | [] =>
      match m p.base_local with
      | .enumv _ fields => some (m.update p.base_local (.enumv var_idx fields))
      | _ => none
    | _ => none
  | .storageLive _ => some m
  | .storageDead _ => some m
  | .nop => some m
  | _ => none

/-- Execute a statement sequence in order. -/
def execStmts (m : Mem) : List Statement → Option Mem
  | [] => some m
  | stmt :: rest => do
    let m1 ← execStmt m stmt
    execStmts m1 rest

/-!
Concrete inputs

Shared concrete blocks used to evaluate the passes on explicit data, built
from the idiom the passes target:
```
_2 = ((_1 as V0).F0);  _3 = _2;  ((_0 as V0).F0) = move _3;  discriminant(_0) = V0;
```
-/

/-- A local-decls table assigning every local the same type. -/
def declsAll : Local → Ty := fun _ => 0

/-- The variant-field place `((l as 0).0 : ty 0)`. -/
def vfPlace (l : Local) : Place := ⟨l, [.downcast 0, .field 0 0]⟩

/-- The read statement `t = ((src as 0).0)` (by copy), with span `n`. -/
def mkRead (n : Nat) (t src : Local) : Statement :=
  ⟨⟨n⟩, .assign (Place.ofLocal t) (.use (.copy (vfPlace src)))⟩

/-- A plain chain link `dst = src` (by copy), with span `n`. -/
def mkLink (n : Nat) (dst src : Local) : Statement :=
  ⟨⟨n⟩, .assign (Place.ofLocal dst) (.use (.copy (Place.ofLocal src)))⟩

/-- The write statement `((dst as 0).0) = move t`, with span `n`. -/
def mkWrite (n : Nat) (dst t : Local) : Statement :=
  ⟨⟨n⟩, .assign (vfPlace dst) (.use (.move (Place.ofLocal t)))⟩

/-- The discriminant set `discriminant(dst) = 0`, with span `n`. -/
def mkDiscr (n : Nat) (dst : Local) : Statement :=
  ⟨⟨n⟩, .setDiscriminant (Place.ofLocal dst) 0⟩

/-- Scenario A: the full idiom with storage markers, destination `_0`,
source `_1`, temporaries `_2` and `_3`. -/
def exA_stmts : List Statement :=
  [⟨⟨0⟩, .storageLive 2⟩, mkRead 1 2 1, ⟨⟨2⟩, .storageLive 3⟩, mkLink 3 3 2,
   mkWrite 4 0 3, mkDiscr 5 0, ⟨⟨6⟩, .storageDead 3⟩, ⟨⟨7⟩, .storageDead 2⟩]

/-- Scenario A's block (ordinary, returning). -/
def exA_bb : BasicBlockData := ⟨exA_stmts, ⟨⟨9⟩, .ret⟩, false⟩

/-- The idiom without storage markers: read, one link, write, discriminant. -/
def exPlain_stmts : List Statement :=
  [mkRead 0 2 1, mkLink 1 3 2, mkWrite 2 0 3, mkDiscr 3 0]

/-- The plain idiom's block. -/
def exPlain_bb : BasicBlockData := ⟨exPlain_stmts, ⟨⟨9⟩, .ret⟩, false⟩

/-- A starting memory: the source `_1` holds a two-field enum value
`variant 0, fields (1, 2)`; the destination `_0` holds `variant 0, fields
(0, 0)`; every other local holds `prim 0`. -/
def exMem : Mem := fun l =>
  if l = 0 then .enumv 0 [0, 0]
  else if l = 1 then .enumv 0 [1, 2]
  else .prim 0

/-- Self-move variant of the plain idiom: source and destination are both
`_0`. -/
def exSelf_stmts : List Statement :=
  [mkRead 0 2 0, mkLink 1 3 2, mkWrite 2 0 3, mkDiscr 3 0]

/-- The self-move block. -/
def exSelf_bb : BasicBlockData := ⟨exSelf_stmts, ⟨⟨9⟩, .ret⟩, false⟩

/-- Empty-chain variant: the write consumes the read's destination directly,
so no plain link is recorded. -/
def exEmptyChain_stmts : List Statement :=
  [mkRead 0 2 1, mkWrite 1 0 2, mkDiscr 2 0]

/-- The empty-chain block. -/
def exEmptyChain_bb : BasicBlockData := ⟨exEmptyChain_stmts, ⟨⟨9⟩, .ret⟩, false⟩

/-- An unrecognized statement: no matcher accepts it, it is not a storage
marker and not an assignment. -/
def exBadStmt : Statement := ⟨⟨8⟩, .otherStmtKind 7⟩

/-- The plain idiom followed by an unrecognized statement. -/
def exBad_stmts : List Statement := exPlain_stmts ++ [exBadStmt]

/-- A second occurrence of the read shape, into a fresh temporary `_9`. -/
def exRead2 : Statement := mkRead 8 9 1

/-- The plain idiom with a second read-shape statement after the first. -/
def exTwoReads_stmts : List Statement :=
  [mkRead 0 2 1, exRead2, mkLink 1 3 2, mkWrite 2 0 3, mkDiscr 3 0]

/-- A scan state in which the read, write and discriminant-set slots are all
already filled (the state reached after scanning the plain idiom). -/
def exFullState : ScanState :=
  ⟨some 2, some 1, some ⟨0, 0, 0⟩, [(3, 2)], some 3, some 0, some ⟨0, 0, 0⟩,
   some 0, some 0, some 0, some (mkDiscr 3 0), [1, 2, 3], [], []⟩

/-- A scan state in which the read and write slots are filled but the
discriminant-set slot is still empty (the state reached after scanning
read, link and write but before any discriminant set). -/
def exWriteOnlyState : ScanState :=
  ⟨some 2, some 1, some ⟨0, 0, 0⟩, [(3, 2)], some 3, some 0, some ⟨0, 0, 0⟩,
   none, none, some 0, none, [1, 2], [], []⟩

/-- A scan state in which the read and discriminant-set slots are filled but
the write slot is still empty. -/
def exDiscrOnlyState : ScanState :=
  ⟨some 2, some 1, some ⟨0, 0, 0⟩, [(3, 2)], none, none, none,
   some 0, some 0, some 0, some (mkDiscr 3 0), [1, 2], [], []⟩

/-- A block holding only a `return` terminator. -/
def retBlock : BasicBlockData := ⟨[], ⟨⟨0⟩, .ret⟩, false⟩

/-- A statically dead block: `unreachable` terminator, no statements. -/
def unreachBlock : BasicBlockData := ⟨[], ⟨⟨2⟩, .unreachable⟩, false⟩

/-- A switch over two targets `0` and `1`. -/
def exSwitchBB : BasicBlockData := ⟨[], ⟨⟨1⟩, .switchInt (.const 0) [0] [0, 1]⟩, false⟩

/-- A body whose two switch targets are identical `return` blocks. -/
def exBranchBody : List BasicBlockData := [retBlock, retBlock, exSwitchBB]

/-- A switch whose first target is the dead block `1`, second target `0`. -/
def exSwitchBB2 : BasicBlockData := ⟨[], ⟨⟨3⟩, .switchInt (.const 0) [0] [1, 0]⟩, false⟩

/-- A body where the switch's first target is statically dead. -/
def exBranchBody2 : List BasicBlockData := [retBlock, unreachBlock, exSwitchBB2]

/-!
Spec-side definitions

These definitions follow the specification's wording (not the source) and
exist to be compared against the source-derived definitions above.
-/

/-- Spec wording: whether a block contains an inline-asm statement, the one
recognized side-effecting statement kind. -/
def hasInlineAsm (bb : BasicBlockData) : Bool :=
  bb.statements.any (fun stmt =>
    match stmt.kind with
    | .inlineAsm _ => true
    | _ => false)

/-- Spec wording: a `SwitchInt` target is excluded from the equivalence
comparison exactly when its block's terminator is `Unreachable` and the
block contains no inline-asm statement. -/
def excludedSpec (bb : BasicBlockData) : Bool :=
  decide (bb.terminator.kind = .unreachable) && !(hasInlineAsm bb)

/-- Spec wording: the surviving successors, in target-list order. -/
def survivorsSpec (bbs : List BasicBlockData) (targets : List Nat) : List Nat :=
  targets.filter (fun idx =>
    match bbs.get? idx with
    | some b => !(excludedSpec b)
    | none => false)

/-- Spec wording: the merge target is the first surviving successor in
target-list order, or the first declared target if none survives. -/
def mergeTargetSpec (bbs : List BasicBlockData) (t0 : Nat) (targets : List Nat) : Nat :=
  (survivorsSpec bbs targets).head?.getD t0

/-- Spec wording of the arm-identity rewrite: walk the statements with their
indices; the statement at the read index becomes the whole-value move
carrying the discriminant statement's source info; then exactly those
statements whose index is not in the removal set and which are not `Nop`
are kept, in their original relative order. -/
def armRewriteSpec (k : Nat) (si : SourceInfo) (local_0 local_1 : Local)
    (removal : List Nat) (i : Nat) (stmts : List Statement) : List Statement :=
  match stmts with
  | [] => []
  | stmt :: rest =>
    let s1 := if i = k then overwriteStmt si local_0 local_1 else stmt
    (if !(removal.contains i) && notNop s1 then [s1] else []) ++
      armRewriteSpec k si local_0 local_1 removal (i + 1) rest

/-- Whether a statement is a storage marker (used by the scan lemmas). -/
def isStorageStmt (stmt : Statement) : Bool :=
  match stmt.kind with
  | .storageLive _ => true
  | .storageDead _ => true
  | _ => false

/-- The candidate record the scanner produces for the self-move block. -/
def exSelfInfo : ArmIdentityInfo :=
  ⟨2, 0, ⟨0, 0, 0⟩, [(3, 2)], 3, 0, ⟨0, 0, 0⟩, 0, 0, 0, ⟨3⟩, [], [1, 2, 3]⟩

/-!
Helper lemmas
-/

/-- A place matched by `match_variant_field_place` carries projections, so it
is not a bare local. -/
theorem as_local_none_of_vfp (p : Place) (x : Local × VarField)
    (h : match_variant_field_place p = some x) : p.as_local = none := by
  unfold match_variant_field_place at h
  unfold Place.as_local
  cases hp : p.projection with
  | nil => rw [hp] at h; exact absurd h (by simp)
  | cons a l => simp [hp]

/-!
Claims
-/

/-- Claim C1 (code_bug evidence): the scanner and checker accept the plain
idiom block, the pass rewrites it to the single move `_0 = move _1`, yet
executing the original and the rewritten statements from the same memory
leaves different final values in the destination local `_0`: the original
copies only the matched field, the rewrite copies the whole source value,
so a second field of the variant diverges.  The rewritten block is therefore
not observably equivalent to the original for every execution. -/
theorem c1_accepted_rewrite_changes_destination :
    ((get_arm_identity_info exPlain_stmts).bind
        (fun i => optimization_applies i declsAll)) = some true ∧
    (simplifyArmIdentityBlock declsAll exPlain_bb).map (fun b => b.statements) =
      some [overwriteStmt ⟨3⟩ 0 1] ∧
    (execStmts exMem exPlain_stmts).map (fun m => m 0) =
      some (.enumv 0 [1, 0]) ∧
    ((simplifyArmIdentityBlock declsAll exPlain_bb).bind
        (fun b => execStmts exMem b.statements)).map (fun m => m 0) =
      some (.enumv 0 [1, 2]) ∧
    (execStmts exMem exPlain_stmts).map (fun m => m 0) ≠
      ((simplifyArmIdentityBlock declsAll exPlain_bb).bind
        (fun b => execStmts exMem b.statements)).map (fun m => m 0) := by
  exact ⟨by decide, by decide, by decide, by decide, by decide⟩

/-- Claim C2 (code_bug evidence): a block matching the idiom with an empty
move chain (the write consumes the read's destination directly) yields a
candidate whose `field_tmp_assignments` is empty; `optimization_applies`
then does not reject it — the `len() == 0` test only traces — but panics
indexing `field_tmp_assignments[0]` (modelled as `none`), and the panic
propagates out of the pass instead of leaving the block as found. -/
theorem c2_empty_chain_panics :
    (get_arm_identity_info exEmptyChain_stmts).map
        (fun i => i.field_tmp_assignments) = some [] ∧
    ((get_arm_identity_info exEmptyChain_stmts).bind
        (fun i => optimization_applies i declsAll)) = none ∧
    simplifyArmIdentityBlock declsAll exEmptyChain_bb = none := by
  exact ⟨by decide, by decide, by decide⟩

/-- Claim C9: a candidate whose source local (`local_1`) equals its
destination local (`local_0`) is rejected by `optimization_applies`
(`some false`) and the pass leaves the block exactly as found. -/
theorem c9_self_move_excluded (local_decls : Local → Ty) (bb : BasicBlockData)
    (info : ArmIdentityInfo)
    (hinfo : get_arm_identity_info bb.statements = some info)
    (hself : info.local_0 = info.local_1) :
    optimization_applies info local_decls = some false ∧
      simplifyArmIdentityBlock local_decls bb = some bb := by
  have happ : optimization_applies info local_decls = some false := by
    unfold optimization_applies
    rw [if_pos hself]
  refine ⟨happ, ?_⟩
  simp only [simplifyArmIdentityBlock, hinfo, happ]

/-- Witness for C9: the self-move block is scanned into a candidate with
`local_0 = local_1 = 0`, and the pass leaves it unchanged. -/
theorem c9_witness :
    optimization_applies exSelfInfo declsAll = some false ∧
      simplifyArmIdentityBlock declsAll exSelf_bb = some exSelf_bb :=
  c9_self_move_excluded declsAll exSelf_bb exSelfInfo (by decide) (by decide)

/-- Counterexample to claim C5: the block `exBad_stmts` ends with a
statement that is none of the recognized shapes (all three matchers reject
it), is not a storage marker and not a plain move link, yet the scan still
returns a candidate for the block — the statement is silently skipped
because the discriminant-set slot is already filled when it is reached. -/
theorem c5_counterexample :
    exBad_stmts.get? 4 = some exBadStmt ∧
    match_get_variant_field exBadStmt = none ∧
    match_set_variant_field exBadStmt = none ∧
    match_set_discr exBadStmt = none ∧
    (get_arm_identity_info exBad_stmts).isSome = true := by
  exact ⟨by decide, by decide, by decide, by decide, by decide⟩

/-- Claim C5 as amended: storage markers never interrupt the scan; an
unrecognized non-storage statement aborts the scan while the slot it would
be matched against is still unfilled (in particular while the read is
unmatched), but once the read and the discriminant-set slots are filled, a
further statement that is neither a storage marker nor an `Assign` of a
`Use` rvalue is silently skipped, leaving the scan state unchanged. -/
theorem c5_amended_abort_only_when_slot_unfilled :
    (∀ (s : ScanState) (i : Nat) (si : SourceInfo) (l : Local),
      scanStep i ⟨si, .storageLive l⟩ s =
        some { s with storage_live_stmts := s.storage_live_stmts ++ [(i, l)] } ∧
      scanStep i ⟨si, .storageDead l⟩ s =
        some { s with storage_dead_stmts := s.storage_dead_stmts ++ [(i, l)] }) ∧
    (∀ (s : ScanState) (i : Nat) (stmt : Statement),
      s.local_tmp_s0 = none → s.local_1 = none → s.vf_s0 = none →
      (∀ l, stmt.kind ≠ .storageLive l) → (∀ l, stmt.kind ≠ .storageDead l) →
      match_get_variant_field stmt = none →
      scanStep i stmt s = none) ∧
    (∀ (s : ScanState) (i : Nat) (stmt : Statement),
      s.local_tmp_s0 ≠ none → s.set_discr_local ≠ none →
      (∀ l, stmt.kind ≠ .storageLive l) → (∀ l, stmt.kind ≠ .storageDead l) →
      (∀ p op, stmt.kind ≠ .assign p (.use op)) →
      scanStep i stmt s = some s) := by
  refine ⟨fun s i si l => ⟨rfl, rfl⟩, ?_, ?_⟩
  · intro s i stmt h0 h1 h2 hlive hdead hm
    obtain ⟨si, k⟩ := stmt
    cases k with
    | storageLive l => exact absurd rfl (hlive l)
    | storageDead l => exact absurd rfl (hdead l)
    | assign p r => simp [scanStep, h0, h1, h2, hm]
    | setDiscriminant p v => simp [scanStep, h0, h1, h2, hm]
    | inlineAsm c => simp [scanStep, h0, h1, h2, hm]
    | nop => simp [scanStep, h0, h1, h2, hm]
    | otherStmtKind c => simp [scanStep, h0, h1, h2, hm]
  · intro s i stmt h0 hd hlive hdead hassign
    obtain ⟨si, k⟩ := stmt
    cases k with
    | storageLive l => exact absurd rfl (hlive l)
    | storageDead l => exact absurd rfl (hdead l)
    | assign p r =>
      cases r with
      | use op => exact absurd rfl (hassign p op)
      | otherRvalue c => simp [scanStep, h0, hd]
    | setDiscriminant p v => simp [scanStep, h0, hd]
    | inlineAsm c => simp [scanStep, h0, hd]
    | nop => simp [scanStep, h0, hd]
    | otherStmtKind c => simp [scanStep, h0, hd]

/-- Witness for the amended C5: a storage marker extends the state, the
unrecognized statement aborts the scan from the empty state, and the same
statement is silently skipped once the read and discriminant slots are
filled. -/
theorem c5_witness :
    scanStep 0 ⟨⟨0⟩, .storageLive 5⟩ initScan =
      some { initScan with storage_live_stmts := [(0, 5)] } ∧
    scanStep 0 exBadStmt initScan = none ∧
    scanStep 9 exBadStmt exFullState = some exFullState := by
  refine ⟨(c5_amended_abort_only_when_slot_unfilled.1 initScan 0 ⟨0⟩ 5).1, ?_, ?_⟩
  · exact c5_amended_abort_only_when_slot_unfilled.2.1 initScan 0 exBadStmt rfl rfl rfl
      (fun l h => by simp [exBadStmt] at h) (fun l h => by simp [exBadStmt] at h)
      (by decide)
  · exact c5_amended_abort_only_when_slot_unfilled.2.2 exFullState 9 exBadStmt
      (by decide) (by decide)
      (fun l h => by simp [exBadStmt] at h) (fun l h => by simp [exBadStmt] at h)
      (fun p op h => by simp [exBadStmt] at h)

/-- Counterexample to claim C6: in `exTwoReads_stmts` a second read-shape
statement follows the first matched read (both are accepted by
`match_get_variant_field`), and the scanner returns no candidate for the
whole block — it does not commit to the first match and continue. -/
theorem c6_counterexample :
    exTwoReads_stmts.get? 0 = some (mkRead 0 2 1) ∧
    (match_get_variant_field (mkRead 0 2 1)).isSome = true ∧
    exTwoReads_stmts.get? 1 = some exRead2 ∧
    (match_get_variant_field exRead2).isSome = true ∧
    get_arm_identity_info exTwoReads_stmts = none := by
  exact ⟨by decide, by decide, by decide, by decide, by decide⟩

/-- Claim C6 as amended: once the read slot is filled, a second occurrence
of the variant-field-read shape is not re-matched as a read; instead it is
treated as a failed plain-move link (its source place carries projections)
and aborts the scan, so the whole block yields no candidate. -/
theorem c6_amended_second_read_aborts (s : ScanState) (i : Nat)
    (stmt : Statement) (r : Local × Local × VarField)
    (h0 : s.local_tmp_s0 ≠ none)
    (hm : match_get_variant_field stmt = some r) :
    scanStep i stmt s = none := by
  obtain ⟨si, k⟩ := stmt
  cases k with
  | assign p rv =>
    cases rv with
    | use op =>
      cases op with
      | copy pf =>
        cases hvf : match_variant_field_place pf with
        | some b =>
          cases hpl : p.as_local with
          | none => simp [match_get_variant_field, hpl] at hm
          | some a => simp [scanStep, h0, hpl, as_local_none_of_vfp pf b hvf]
        | none =>
          cases hpl : p.as_local with
          | none => simp [match_get_variant_field, hpl] at hm
          | some a => simp [match_get_variant_field, hpl, hvf] at hm
      | move pf =>
        cases hvf : match_variant_field_place pf with
        | some b =>
          cases hpl : p.as_local with
          | none => simp [match_get_variant_field, hpl] at hm
          | some a => simp [scanStep, h0, hpl, as_local_none_of_vfp pf b hvf]
        | none =>
          cases hpl : p.as_local with
          | none => simp [match_get_variant_field, hpl] at hm
          | some a => simp [match_get_variant_field, hpl, hvf] at hm
      | const c => simp [match_get_variant_field] at hm
    | otherRvalue c => simp [match_get_variant_field] at hm
  | setDiscriminant p v => simp [match_get_variant_field] at hm
  | storageLive l => simp [match_get_variant_field] at hm
  | storageDead l => simp [match_get_variant_field] at hm
  | inlineAsm c => simp [match_get_variant_field] at hm
  | nop => simp [match_get_variant_field] at hm
  | otherStmtKind c => simp [match_get_variant_field] at hm

/-- Witness for the amended C6: with the read slot filled, the second
read-shape statement makes the scan step abort. -/
theorem c6_witness : scanStep 1 exRead2 exFullState = none :=
  c6_amended_second_read_aborts exFullState 1 exRead2 (9, 1, ⟨0, 0, 0⟩)
    (by decide) (by decide)

/-- Claim C10: once the write slot is filled, a further statement of the
variant-field-write shape is silently skipped (state unchanged, no
rejection) regardless of whether the discriminant-set slot is filled yet;
and once the discriminant-set slot is filled, a further discriminant-set
statement is silently skipped likewise regardless of the write slot:
first match wins.  Each part only needs the read slot filled besides its
own, as it is whenever a first occurrence of its shape has been recorded
(a first write or discriminant-set is only ever recorded after the read
matched). -/
theorem c10_second_write_discr_ignored :
    (∀ (s : ScanState) (i : Nat) (stmtW : Statement)
      (w : Local × Local × VarField),
      s.local_tmp_s0 ≠ none → s.local_tmp_s1 ≠ none →
      match_set_variant_field stmtW = some w →
      scanStep i stmtW s = some s) ∧
    (∀ (s : ScanState) (j : Nat) (stmtD : Statement) (d : Local × VariantIdx),
      s.local_tmp_s0 ≠ none → s.set_discr_local ≠ none →
      match_set_discr stmtD = some d →
      scanStep j stmtD s = some s) := by
  constructor
  · intro s i stmtW w h0 hw hmw
    obtain ⟨si, k⟩ := stmtW
    cases k with
    | assign p rv =>
      cases rv with
      | use op =>
        cases op with
        | move pf =>
          cases hvf : match_variant_field_place p with
          | some b => simp [scanStep, h0, hw, as_local_none_of_vfp p b hvf]
          | none =>
            cases hpl : pf.as_local with
            | none => simp [match_set_variant_field, hpl] at hmw
            | some a => simp [match_set_variant_field, hpl, hvf] at hmw
        | copy pf => simp [match_set_variant_field] at hmw
        | const c => simp [match_set_variant_field] at hmw
      | otherRvalue c => simp [match_set_variant_field] at hmw
    | setDiscriminant p v => simp [match_set_variant_field] at hmw
    | storageLive l => simp [match_set_variant_field] at hmw
    | storageDead l => simp [match_set_variant_field] at hmw
    | inlineAsm c => simp [match_set_variant_field] at hmw
    | nop => simp [match_set_variant_field] at hmw
    | otherStmtKind c => simp [match_set_variant_field] at hmw
  · intro s j stmtD d h0 hd hmd
    obtain ⟨si, k⟩ := stmtD
    cases k with
    | setDiscriminant p v => simp [scanStep, h0, hd]
    | assign p rv => simp [match_set_discr] at hmd
    | storageLive l => simp [match_set_discr] at hmd
    | storageDead l => simp [match_set_discr] at hmd
    | inlineAsm c => simp [match_set_discr] at hmd
    | nop => simp [match_set_discr] at hmd
    | otherStmtKind c => simp [match_set_discr] at hmd

/-- Witness for C10, covering both orderings: a second write-shape statement
is skipped while the discriminant-set slot is still empty, and a second
discriminant-set statement is skipped while the write slot is still empty
(and both are also skipped in the fully-filled state). -/
theorem c10_witness :
    scanStep 9 (mkWrite 9 0 3) exWriteOnlyState = some exWriteOnlyState ∧
    scanStep 9 (mkDiscr 9 0) exDiscrOnlyState = some exDiscrOnlyState ∧
    scanStep 9 (mkWrite 9 0 3) exFullState = some exFullState ∧
    scanStep 9 (mkDiscr 9 0) exFullState = some exFullState :=
  ⟨c10_second_write_discr_ignored.1 exWriteOnlyState 9 (mkWrite 9 0 3)
      (3, 0, ⟨0, 0, 0⟩) (by decide) (by decide) (by decide),
   c10_second_write_discr_ignored.2 exDiscrOnlyState 9 (mkDiscr 9 0)
      (0, 0) (by decide) (by decide) (by decide),
   c10_second_write_discr_ignored.1 exFullState 9 (mkWrite 9 0 3)
      (3, 0, ⟨0, 0, 0⟩) (by decide) (by decide) (by decide),
   c10_second_write_discr_ignored.2 exFullState 9 (mkDiscr 9 0)
      (0, 0) (by decide) (by decide) (by decide)⟩

/-- The source's survival filter agrees pointwise with the spec's exclusion
condition: a block is kept iff it is NOT (unreachable terminator and no
inline asm). -/
theorem reachable_eq_not_excluded (b : BasicBlockData) :
    isReachableFilter b = !(excludedSpec b) := by
  by_cases ht : b.terminator.kind = .unreachable <;>
    simp [isReachableFilter, excludedSpec, hasInlineAsm, ht]

/-- The targets surviving the source's zip-and-filter are exactly the
spec-worded survivor list, whenever every target index resolves. -/
theorem zip_filter_fst (bbs : List BasicBlockData) :
    ∀ (targets : List Nat) (blocks : List BasicBlockData),
      resolveTargets bbs targets = some blocks →
      ((targets.zip blocks).filter (fun p => isReachableFilter p.2)).map Prod.fst =
        survivorsSpec bbs targets := by
  intro targets
  induction targets with
  | nil =>
    intro blocks h
    simp only [resolveTargets, Option.some.injEq] at h
    subst h
    simp [survivorsSpec]
  | cons t ts ih =>
    intro blocks h
    cases hb : bbs.get? t with
    | none =>
      rw [List.get?_eq_getElem?] at hb
      simp [resolveTargets, hb] at h
    | some b =>
      rw [List.get?_eq_getElem?] at hb
      cases hrest : resolveTargets bbs ts with
      | none => simp [resolveTargets, hb, hrest] at h
      | some bs =>
        simp only [resolveTargets, List.get?_eq_getElem?, hb, hrest,
          Option.some.injEq] at h
        subst h
        simp only [List.zip_cons_cons, survivorsSpec, List.filter_cons,
          List.get?_eq_getElem?, hb]
        rw [reachable_eq_not_excluded b]
        cases hex : excludedSpec b <;>
          simpa [hex, survivorsSpec, List.get?_eq_getElem?] using ih bs hrest

/-- Claim C3: for a block with a `SwitchInt` terminator (with resolvable
targets), the pass replaces the terminator by a `Goto` to the merge target
if and only if every adjacent pair of surviving successors is equivalent —
where equivalence (`bbEquiv`) is: same cleanup classification, equal
terminator kinds with all their fields, and statement kinds equal
element-wise at equal length, ignoring source info.  With zero or one
surviving successor the condition holds vacuously and the branch collapses
to a jump. -/
theorem c3_branch_goto_iff (bbs : List BasicBlockData) (bb : BasicBlockData)
    (discr : Operand) (values : List Nat) (t0 : Nat) (rest : List Nat)
    (blocks : List BasicBlockData)
    (hterm : bb.terminator.kind = .switchInt discr values (t0 :: rest))
    (hblocks : resolveTargets bbs (t0 :: rest) = some blocks) :
    (simplifyBranchSameBlock bbs bb =
        some (.goto (((((t0 :: rest).zip blocks).filter
          (fun p => isReachableFilter p.2)).head?.map Prod.fst).getD t0))) ↔
      pairwiseAll ((((t0 :: rest).zip blocks).filter
        (fun p => isReachableFilter p.2)).map Prod.snd) = true := by
  simp only [simplifyBranchSameBlock, hterm, hblocks]
  cases hpa : pairwiseAll ((((t0 :: rest).zip blocks).filter
      (fun p => isReachableFilter p.2)).map Prod.snd) <;>
    simp [hpa]

/-- Witness for C3: a switch over two identical `return` blocks collapses to
`goto 0`. -/
theorem c3_witness :
    simplifyBranchSameBlock exBranchBody exSwitchBB = some (.goto 0) := by
  have h := c3_branch_goto_iff exBranchBody exSwitchBB (.const 0) [0] 0 [1]
    [retBlock, retBlock] rfl (by decide)
  exact h.mpr (by decide)

/-- Claim C4: a target is excluded from the comparison exactly when its
block's terminator is `Unreachable` and it has no inline-asm statement
(first conjunct, pointwise on blocks), and whenever the pass merges a
`SwitchInt` block it jumps to the spec's merge target: the first surviving
successor in target-list order, or the first declared target if none
survives. -/
theorem c4_filter_and_merge_target (bbs : List BasicBlockData)
    (bb : BasicBlockData) (discr : Operand) (values : List Nat) (t0 : Nat)
    (rest : List Nat) (blocks : List BasicBlockData)
    (hterm : bb.terminator.kind = .switchInt discr values (t0 :: rest))
    (hblocks : resolveTargets bbs (t0 :: rest) = some blocks) :
    (∀ b, isReachableFilter b = !(excludedSpec b)) ∧
    ∃ k, simplifyBranchSameBlock bbs bb = some k ∧
      ∀ tgt, k = .goto tgt → tgt = mergeTargetSpec bbs t0 (t0 :: rest) := by
  refine ⟨reachable_eq_not_excluded, ?_⟩
  have hz := zip_filter_fst bbs (t0 :: rest) blocks hblocks
  have hfirst : ((((t0 :: rest).zip blocks).filter
      (fun p => isReachableFilter p.2)).head?.map Prod.fst).getD t0 =
      mergeTargetSpec bbs t0 (t0 :: rest) := by
    unfold mergeTargetSpec
    rw [← hz, List.head?_map]
  simp only [simplifyBranchSameBlock, hterm, hblocks]
  cases hpa : pairwiseAll ((((t0 :: rest).zip blocks).filter
      (fun p => isReachableFilter p.2)).map Prod.snd)
  · refine ⟨.switchInt discr values (t0 :: rest), by simp [hpa], ?_⟩
    intro tgt h
    exact TerminatorKind.noConfusion h
  · refine ⟨.goto (((((t0 :: rest).zip blocks).filter
      (fun p => isReachableFilter p.2)).head?.map Prod.fst).getD t0), by simp [hpa], ?_⟩
    intro tgt h
    cases h
    exact hfirst

/-- Witness for C4: a switch whose first target is a statically dead block
(`unreachable`, no statements) merges to the second target `0`, the spec's
merge target; the dead block is indeed excluded by the filter. -/
theorem c4_witness :
    isReachableFilter unreachBlock = !(excludedSpec unreachBlock) ∧
    ∃ k, simplifyBranchSameBlock exBranchBody2 exSwitchBB2 = some k ∧
      ∀ tgt, k = .goto tgt → tgt = mergeTargetSpec exBranchBody2 1 [1, 0] := by
  have h := c4_filter_and_merge_target exBranchBody2 exSwitchBB2 (.const 0) [0] 1 [0]
    [unreachBlock, retBlock] rfl (by decide)
  exact ⟨h.1 unreachBlock, h.2⟩

/-- The source's two-phase rewrite — make the removed statements `Nop`, then
drop every `Nop` — equals the spec-worded index filter. -/
theorem filter_overwriteAndNop (k : Nat) (si : SourceInfo) (l0 l1 : Local)
    (removal : List Nat) :
    ∀ (stmts : List Statement) (i : Nat),
      (overwriteAndNop k si l0 l1 removal i stmts).filter notNop =
        armRewriteSpec k si l0 l1 removal i stmts := by
  intro stmts
  induction stmts with
  | nil => intro i; rfl
  | cons stmt rest ih =>
    intro i
    simp only [overwriteAndNop, armRewriteSpec]
    cases hc : removal.contains i with
    | true =>
      have hnn : notNop ((if i = k then overwriteStmt si l0 l1 else stmt).make_nop) = false := by
        simp [notNop, Statement.make_nop]
      simp [List.filter_cons, hc, hnn, ih (i + 1)]
    | false =>
      cases hk : notNop (if i = k then overwriteStmt si l0 l1 else stmt) with
      | true => simp [List.filter_cons, hc, hk, ih (i + 1)]
      | false => simp [List.filter_cons, hc, hk, ih (i + 1)]

/-- Claim C7: on acceptance, the pass rewrites the block exactly as the spec
describes — the statement at the read index becomes `local_0 = move local_1`
with the discriminant statement's source info, every index in the removal
set (scanner-recorded statements plus storage pairs keyed by a chain-link
local) is dropped along with every `Nop`, and the remaining statements keep
their relative order (`armRewriteSpec`).  Moreover the whole pass maps each
block to the rewrite of that block alone, so no other block is affected. -/
theorem c7_rewrite_shape (local_decls : Local → Ty) (bb : BasicBlockData)
    (opt_info : ArmIdentityInfo) (si : SourceInfo) (pl : Place) (rv : Rvalue)
    (hinfo : get_arm_identity_info bb.statements = some opt_info)
    (happ : optimization_applies opt_info local_decls = some true)
    (hread : bb.statements.get? opt_info.stmt_to_overwrite =
      some ⟨si, .assign pl rv⟩) :
    simplifyArmIdentityBlock local_decls bb = some { bb with statements :=
      (armRewriteSpec opt_info.stmt_to_overwrite opt_info.source_info
        opt_info.local_0 opt_info.local_1
        (opt_info.stmts_to_remove ++
          extraStorageRemovals opt_info.field_tmp_assignments opt_info.storage_stmts)
        0 bb.statements) } ∧
    (∀ blocks out, runArmIdentityPass local_decls blocks = some out →
      ∀ n, out.get? n =
        (blocks.get? n).bind (simplifyArmIdentityBlock local_decls)) := by
  constructor
  · simp only [simplifyArmIdentityBlock, hinfo, happ, hread]
    rw [filter_overwriteAndNop]
  · intro blocks
    induction blocks with
    | nil =>
      intro out hrun n
      simp only [runArmIdentityPass, Option.some.injEq] at hrun
      subst hrun
      simp
    | cons b bs ih =>
      intro out hrun n
      cases hsb : simplifyArmIdentityBlock local_decls b with
      | none =>
        simp only [runArmIdentityPass, hsb] at hrun
        exact Option.noConfusion hrun
      | some b1 =>
        cases hrec : runArmIdentityPass local_decls bs with
        | none =>
          simp only [runArmIdentityPass, hsb, hrec] at hrun
          exact Option.noConfusion hrun
        | some rest1 =>
          simp only [runArmIdentityPass, hsb, hrec, Option.some.injEq] at hrun
          subst hrun
          cases n with
          | zero => simp [hsb]
          | succ m =>
            have := ih rest1 hrec m
            simpa using this

/-- The candidate record the scanner produces for scenario A. -/
def exAInfo : ArmIdentityInfo :=
  ⟨2, 1, ⟨0, 0, 0⟩, [(3, 2)], 3, 0, ⟨0, 0, 0⟩, 0, 0, 1, ⟨5⟩,
   [(0, 7, 2), (2, 6, 3)], [3, 4, 5]⟩

/-- Witness for C7: the full scenario-A block is rewritten to the spec's
filtered form. -/
theorem c7_witness :
    simplifyArmIdentityBlock declsAll exA_bb = some { exA_bb with statements :=
      (armRewriteSpec 1 ⟨5⟩ 0 1
        ([3, 4, 5] ++ extraStorageRemovals [(3, 2)] [(0, 7, 2), (2, 6, 3)])
        0 exA_stmts) } :=
  (c7_rewrite_shape declsAll exA_bb exAInfo ⟨1⟩ (Place.ofLocal 2)
    (.use (.copy (vfPlace 1))) (by decide) (by decide) (by decide)).1

/-- Exhaustive outcome analysis of one scan step: a successful step is a
storage push, the read match (only when the read slots are all unfilled), or
— with the read slots filled — a chain-link push, the write match, the
discriminant match, or a silent skip. -/
theorem scanStep_cases (i : Nat) (stmt : Statement) (s s1 : ScanState)
    (h : scanStep i stmt s = some s1) :
    (∃ l, stmt.kind = .storageLive l ∧
      s1 = { s with storage_live_stmts := s.storage_live_stmts ++ [(i, l)] }) ∨
    (∃ l, stmt.kind = .storageDead l ∧
      s1 = { s with storage_dead_stmts := s.storage_dead_stmts ++ [(i, l)] }) ∨
    (s.local_tmp_s0 = none ∧ s.local_1 = none ∧ s.vf_s0 = none ∧
      ∃ a b vf, match_get_variant_field stmt = some (a, b, vf) ∧
        s1 = { s with local_tmp_s0 := some a, local_1 := some b, vf_s0 := some vf,
                      starting_stmt := some i }) ∨
    (¬(s.local_tmp_s0 = none ∧ s.local_1 = none ∧ s.vf_s0 = none) ∧
      ((∃ l pl, s1 = { s with tmp_assigns := s.tmp_assigns ++ [(l, pl)],
                              nop_stmts := s.nop_stmts ++ [i] }) ∨
       (∃ a b vf, s1 = { s with local_tmp_s1 := some a, local_0 := some b,
                                vf_s1 := some vf, nop_stmts := s.nop_stmts ++ [i] }) ∨
       (∃ l vi, s1 = { s with set_discr_local := some l, set_discr_var_idx := some vi,
                              discr_stmt := some stmt, nop_stmts := s.nop_stmts ++ [i] }) ∨
       s1 = s)) := by
  obtain ⟨ssi, k⟩ := stmt
  by_cases hread : s.local_tmp_s0 = none ∧ s.local_1 = none ∧ s.vf_s0 = none
  · cases k with
    | storageLive l =>
      simp only [scanStep, Option.some.injEq] at h
      exact Or.inl ⟨l, rfl, h.symm⟩
    | storageDead l =>
      simp only [scanStep, Option.some.injEq] at h
      exact Or.inr (Or.inl ⟨l, rfl, h.symm⟩)
    | assign p rv =>
      simp only [scanStep, if_pos hread] at h
      cases hm : match_get_variant_field ⟨ssi, .assign p rv⟩ with
      | none => rw [hm] at h; exact Option.noConfusion h
      | some t =>
        obtain ⟨a, b, vf⟩ := t
        rw [hm] at h
        simp only [Option.some.injEq] at h
        exact Or.inr (Or.inr (Or.inl
          ⟨hread.1, hread.2.1, hread.2.2, a, b, vf, rfl, h.symm⟩))
    | setDiscriminant p v =>
      simp only [scanStep, if_pos hread, match_get_variant_field] at h
      exact Option.noConfusion h
    | inlineAsm c =>
      simp only [scanStep, if_pos hread, match_get_variant_field] at h
      exact Option.noConfusion h
    | nop =>
      simp only [scanStep, if_pos hread, match_get_variant_field] at h
      exact Option.noConfusion h
    | otherStmtKind c =>
      simp only [scanStep, if_pos hread, match_get_variant_field] at h
      exact Option.noConfusion h
  · cases k with
    | storageLive l =>
      simp only [scanStep, Option.some.injEq] at h
      exact Or.inl ⟨l, rfl, h.symm⟩
    | storageDead l =>
      simp only [scanStep, Option.some.injEq] at h
      exact Or.inr (Or.inl ⟨l, rfl, h.symm⟩)
    | assign p rv =>
      cases rv with
      | use op =>
        cases op with
        | copy pf =>
          simp only [scanStep, if_neg hread] at h
          cases hpl : p.as_local with
          | some l =>
            rw [hpl] at h
            cases hpf : pf.as_local with
            | some pl2 =>
              rw [hpf] at h
              simp only [Option.some.injEq] at h
              exact Or.inr (Or.inr (Or.inr ⟨hread, Or.inl ⟨l, pl2, h.symm⟩⟩))
            | none => rw [hpf] at h; exact Option.noConfusion h
          | none =>
            rw [hpl] at h
            by_cases hw : s.local_tmp_s1 = none ∧ s.local_0 = none ∧ s.vf_s1 = none
            · rw [if_pos hw] at h
              cases hmw : match_set_variant_field ⟨ssi, .assign p (.use (.copy pf))⟩ with
              | none => rw [hmw] at h; exact Option.noConfusion h
              | some t =>
                obtain ⟨a, b, vf⟩ := t
                rw [hmw] at h
                simp only [Option.some.injEq] at h
                exact Or.inr (Or.inr (Or.inr ⟨hread, Or.inr (Or.inl ⟨a, b, vf, h.symm⟩)⟩))
            · rw [if_neg hw] at h
              simp only [Option.some.injEq] at h
              exact Or.inr (Or.inr (Or.inr ⟨hread, Or.inr (Or.inr (Or.inr h.symm))⟩))
        | move pf =>
          simp only [scanStep, if_neg hread] at h
          cases hpl : p.as_local with
          | some l =>
            rw [hpl] at h
            cases hpf : pf.as_local with
            | some pl2 =>
              rw [hpf] at h
              simp only [Option.some.injEq] at h
              exact Or.inr (Or.inr (Or.inr ⟨hread, Or.inl ⟨l, pl2, h.symm⟩⟩))
            | none => rw [hpf] at h; exact Option.noConfusion h
          | none =>
            rw [hpl] at h
            by_cases hw : s.local_tmp_s1 = none ∧ s.local_0 = none ∧ s.vf_s1 = none
            · rw [if_pos hw] at h
              cases hmw : match_set_variant_field ⟨ssi, .assign p (.use (.move pf))⟩ with
              | none => rw [hmw] at h; exact Option.noConfusion h
              | some t =>
                obtain ⟨a, b, vf⟩ := t
                rw [hmw] at h
                simp only [Option.some.injEq] at h
                exact Or.inr (Or.inr (Or.inr ⟨hread, Or.inr (Or.inl ⟨a, b, vf, h.symm⟩)⟩))
            · rw [if_neg hw] at h
              simp only [Option.some.injEq] at h
              exact Or.inr (Or.inr (Or.inr ⟨hread, Or.inr (Or.inr (Or.inr h.symm))⟩))
        | const c =>
          simp only [scanStep, if_neg hread] at h
          cases hpl : p.as_local with
          | some l => rw [hpl] at h; exact Option.noConfusion h
          | none =>
            rw [hpl] at h
            by_cases hw : s.local_tmp_s1 = none ∧ s.local_0 = none ∧ s.vf_s1 = none
            · rw [if_pos hw] at h
              cases hmw : match_set_variant_field ⟨ssi, .assign p (.use (.const c))⟩ with
              | none => rw [hmw] at h; exact Option.noConfusion h
              | some t =>
                obtain ⟨a, b, vf⟩ := t
                rw [hmw] at h
                simp only [Option.some.injEq] at h
                exact Or.inr (Or.inr (Or.inr ⟨hread, Or.inr (Or.inl ⟨a, b, vf, h.symm⟩)⟩))
            · rw [if_neg hw] at h
              simp only [Option.some.injEq] at h
              exact Or.inr (Or.inr (Or.inr ⟨hread, Or.inr (Or.inr (Or.inr h.symm))⟩))
      | otherRvalue c =>
        simp only [scanStep, if_neg hread] at h
        by_cases hd : s.set_discr_local = none ∧ s.set_discr_var_idx = none
        · rw [if_pos hd] at h
          have hmd : match_set_discr ⟨ssi, .assign p (.otherRvalue c)⟩ = none := by
            simp [match_set_discr]
          rw [hmd] at h
          exact Option.noConfusion h
        · rw [if_neg hd] at h
          simp only [Option.some.injEq] at h
          exact Or.inr (Or.inr (Or.inr ⟨hread, Or.inr (Or.inr (Or.inr h.symm))⟩))
    | setDiscriminant p v =>
      simp only [scanStep, if_neg hread] at h
      by_cases hd : s.set_discr_local = none ∧ s.set_discr_var_idx = none
      · rw [if_pos hd] at h
        cases hpl : p.as_local with
        | some l =>
          have hmd : match_set_discr ⟨ssi, .setDiscriminant p v⟩ = some (l, v) := by
            simp [match_set_discr, hpl]
          rw [hmd] at h
          simp only [Option.some.injEq] at h
          exact Or.inr (Or.inr (Or.inr ⟨hread, Or.inr (Or.inr (Or.inl ⟨l, v, h.symm⟩))⟩))
        | none =>
          have hmd : match_set_discr ⟨ssi, .setDiscriminant p v⟩ = none := by
            simp [match_set_discr, hpl]
          rw [hmd] at h
          exact Option.noConfusion h
      · rw [if_neg hd] at h
        simp only [Option.some.injEq] at h
        exact Or.inr (Or.inr (Or.inr ⟨hread, Or.inr (Or.inr (Or.inr h.symm))⟩))
    | inlineAsm c =>
      simp only [scanStep, if_neg hread] at h
      by_cases hd : s.set_discr_local = none ∧ s.set_discr_var_idx = none
      · rw [if_pos hd] at h
        have hmd : match_set_discr ⟨ssi, .inlineAsm c⟩ = none := by
          simp [match_set_discr]
        rw [hmd] at h
        exact Option.noConfusion h
      · rw [if_neg hd] at h
        simp only [Option.some.injEq] at h
        exact Or.inr (Or.inr (Or.inr ⟨hread, Or.inr (Or.inr (Or.inr h.symm))⟩))
    | nop =>
      simp only [scanStep, if_neg hread] at h
      by_cases hd : s.set_discr_local = none ∧ s.set_discr_var_idx = none
      · rw [if_pos hd] at h
        have hmd : match_set_discr ⟨ssi, .nop⟩ = none := by
          simp [match_set_discr]
        rw [hmd] at h
        exact Option.noConfusion h
      · rw [if_neg hd] at h
        simp only [Option.some.injEq] at h
        exact Or.inr (Or.inr (Or.inr ⟨hread, Or.inr (Or.inr (Or.inr h.symm))⟩))
    | otherStmtKind c =>
      simp only [scanStep, if_neg hread] at h
      by_cases hd : s.set_discr_local = none ∧ s.set_discr_var_idx = none
      · rw [if_pos hd] at h
        have hmd : match_set_discr ⟨ssi, .otherStmtKind c⟩ = none := by
          simp [match_set_discr]
        rw [hmd] at h
        exact Option.noConfusion h
      · rw [if_neg hd] at h
        simp only [Option.some.injEq] at h
        exact Or.inr (Or.inr (Or.inr ⟨hread, Or.inr (Or.inr (Or.inr h.symm))⟩))

/-- Membership in a one-element extension. -/
theorem mem_snoc {α : Type} (l : List α) (e x : α) (h : x ∈ l ++ [e]) :
    x ∈ l ∨ x = e := by
  rcases List.mem_append.mp h with h1 | h1
  · exact Or.inl h1
  · exact Or.inr (List.mem_singleton.mp h1)

/-- Once the read slot is filled, the whole scan preserves the read slots
and the recorded read index. -/
theorem scanAux_preserves_filled (stmts : List Statement) :
    ∀ (i : Nat) (s s' : ScanState), s.local_tmp_s0 ≠ none →
      scanAux i stmts s = some s' →
      s'.local_tmp_s0 = s.local_tmp_s0 ∧ s'.local_1 = s.local_1 ∧
        s'.vf_s0 = s.vf_s0 ∧ s'.starting_stmt = s.starting_stmt := by
  induction stmts with
  | nil =>
    intro i s s' h0 h
    simp only [scanAux, Option.some.injEq] at h
    subst h
    exact ⟨rfl, rfl, rfl, rfl⟩
  | cons stmt rest ih =>
    intro i s s' h0 h
    cases hstep : scanStep i stmt s with
    | none =>
      simp only [scanAux, hstep] at h
      exact Option.noConfusion h
    | some s1 =>
      simp only [scanAux, hstep] at h
      rcases scanStep_cases i stmt s s1 hstep with
        ⟨l, hk, rfl⟩ | ⟨l, hk, rfl⟩ | ⟨hn, _⟩ | ⟨_, hcase⟩
      · have hrec := ih (i + 1) _ s' (by exact h0) h
        exact hrec
      · have hrec := ih (i + 1) _ s' (by exact h0) h
        exact hrec
      · exact absurd hn h0
      · rcases hcase with ⟨l, pl, rfl⟩ | ⟨a, b, vf, rfl⟩ | ⟨l, vi, rfl⟩ | rfl
        · have hrec := ih (i + 1) _ s' (by exact h0) h
          exact hrec
        · have hrec := ih (i + 1) _ s' (by exact h0) h
          exact hrec
        · have hrec := ih (i + 1) _ s' (by exact h0) h
          exact hrec
        · have hrec := ih (i + 1) _ s' (by exact h0) h
          exact hrec

/-- Every list entry recorded during a scan starting at index `i` either was
already present or carries an index at least `i`. -/
theorem scanAux_new_indices (stmts : List Statement) :
    ∀ (i : Nat) (s s' : ScanState), scanAux i stmts s = some s' →
      (∀ x ∈ s'.nop_stmts, x ∈ s.nop_stmts ∨ i ≤ x) ∧
      (∀ p ∈ s'.storage_live_stmts, p ∈ s.storage_live_stmts ∨ i ≤ p.1) ∧
      (∀ p ∈ s'.storage_dead_stmts, p ∈ s.storage_dead_stmts ∨ i ≤ p.1) := by
  induction stmts with
  | nil =>
    intro i s s' h
    simp only [scanAux, Option.some.injEq] at h
    subst h
    exact ⟨fun x hx => Or.inl hx, fun p hp => Or.inl hp, fun p hp => Or.inl hp⟩
  | cons stmt rest ih =>
    intro i s s' h
    cases hstep : scanStep i stmt s with
    | none =>
      simp only [scanAux, hstep] at h
      exact Option.noConfusion h
    | some s1 =>
      simp only [scanAux, hstep] at h
      have hrec := ih (i + 1) s1 s' h
      have hlift : ∀ x : Nat, i + 1 ≤ x → i ≤ x := fun x hx => Nat.le_of_succ_le hx
      rcases scanStep_cases i stmt s s1 hstep with
        ⟨l, hk, rfl⟩ | ⟨l, hk, rfl⟩ | ⟨_, _, _, a, b, vf, hm, rfl⟩ | ⟨_, hcase⟩
      · refine ⟨fun x hx => ?_, fun p hp => ?_, fun p hp => ?_⟩
        · rcases hrec.1 x hx with h1 | h1
          · exact Or.inl h1
          · exact Or.inr (hlift x h1)
        · rcases hrec.2.1 p hp with h1 | h1
          · rcases mem_snoc _ _ _ h1 with h2 | h2
            · exact Or.inl h2
            · exact Or.inr (by rw [h2])
          · exact Or.inr (hlift p.1 h1)
        · rcases hrec.2.2 p hp with h1 | h1
          · exact Or.inl h1
          · exact Or.inr (hlift p.1 h1)
      · refine ⟨fun x hx => ?_, fun p hp => ?_, fun p hp => ?_⟩
        · rcases hrec.1 x hx with h1 | h1
          · exact Or.inl h1
          · exact Or.inr (hlift x h1)
        · rcases hrec.2.1 p hp with h1 | h1
          · exact Or.inl h1
          · exact Or.inr (hlift p.1 h1)
        · rcases hrec.2.2 p hp with h1 | h1
          · rcases mem_snoc _ _ _ h1 with h2 | h2
            · exact Or.inl h2
            · exact Or.inr (by rw [h2])
          · exact Or.inr (hlift p.1 h1)
      · refine ⟨fun x hx => ?_, fun p hp => ?_, fun p hp => ?_⟩
        · rcases hrec.1 x hx with h1 | h1
          · exact Or.inl h1
          · exact Or.inr (hlift x h1)
        · rcases hrec.2.1 p hp with h1 | h1
          · exact Or.inl h1
          · exact Or.inr (hlift p.1 h1)
        · rcases hrec.2.2 p hp with h1 | h1
          · exact Or.inl h1
          · exact Or.inr (hlift p.1 h1)
      · have hnop : ∀ x ∈ s1.nop_stmts, x ∈ s.nop_stmts ∨ x = i := by
          rcases hcase with ⟨l, pl, rfl⟩ | ⟨a, b, vf, rfl⟩ | ⟨l, vi, rfl⟩ | rfl
          · exact fun x hx => mem_snoc _ _ _ hx
          · exact fun x hx => mem_snoc _ _ _ hx
          · exact fun x hx => mem_snoc _ _ _ hx
          · exact fun x hx => Or.inl hx
        have hsl : s1.storage_live_stmts = s.storage_live_stmts := by
          rcases hcase with ⟨l, pl, rfl⟩ | ⟨a, b, vf, rfl⟩ | ⟨l, vi, rfl⟩ | rfl <;> rfl
        have hsd : s1.storage_dead_stmts = s.storage_dead_stmts := by
          rcases hcase with ⟨l, pl, rfl⟩ | ⟨a, b, vf, rfl⟩ | ⟨l, vi, rfl⟩ | rfl <;> rfl
        refine ⟨fun x hx => ?_, fun p hp => ?_, fun p hp => ?_⟩
        · rcases hrec.1 x hx with h1 | h1
          · rcases hnop x h1 with h2 | h2
            · exact Or.inl h2
            · exact Or.inr (by rw [h2])
          · exact Or.inr (hlift x h1)
        · rcases hrec.2.1 p hp with h1 | h1
          · exact Or.inl (hsl ▸ h1)
          · exact Or.inr (hlift p.1 h1)
        · rcases hrec.2.2 p hp with h1 | h1
          · exact Or.inl (hsd ▸ h1)
          · exact Or.inr (hlift p.1 h1)

/-- If a scan started with all read slots (and the read index) unfilled ends
with the read index recorded as `k`, then the statements decompose as a
storage-only front followed by the matched read statement at position `k`,
and every recorded nop/live/dead index either pre-existed or differs
from `k`. -/
theorem scanAux_decomp (stmts : List Statement) :
    ∀ (i : Nat) (s s' : ScanState) (k : Nat),
      s.local_tmp_s0 = none → s.local_1 = none → s.vf_s0 = none →
      s.starting_stmt = none →
      scanAux i stmts s = some s' →
      s'.starting_stmt = some k →
      ∃ pre w post, stmts = pre ++ w :: post ∧
        (∀ u ∈ pre, isStorageStmt u = true) ∧
        i + pre.length = k ∧
        (∀ x ∈ s'.nop_stmts, x ∈ s.nop_stmts ∨ x ≠ k) ∧
        (∀ p ∈ s'.storage_live_stmts, p ∈ s.storage_live_stmts ∨ p.1 ≠ k) ∧
        (∀ p ∈ s'.storage_dead_stmts, p ∈ s.storage_dead_stmts ∨ p.1 ≠ k) := by
  induction stmts with
  | nil =>
    intro i s s' k h0 h1 h2 h3 h hk
    simp only [scanAux, Option.some.injEq] at h
    subst h
    rw [h3] at hk
    exact Option.noConfusion hk
  | cons stmt rest ih =>
    intro i s s' k h0 h1 h2 h3 h hk
    cases hstep : scanStep i stmt s with
    | none =>
      simp only [scanAux, hstep] at h
      exact Option.noConfusion h
    | some s1 =>
      simp only [scanAux, hstep] at h
      rcases scanStep_cases i stmt s s1 hstep with
        ⟨l, hkind, rfl⟩ | ⟨l, hkind, rfl⟩ |
        ⟨_, _, _, a, b, vf, hm, rfl⟩ | ⟨hnc, hcase⟩
      · obtain ⟨pre, w, post, hsplit, hstor, hlen, hnop, hlivep, hdeadp⟩ :=
          ih (i + 1) _ s' k (by exact h0) (by exact h1) (by exact h2)
            (by exact h3) h hk
        refine ⟨stmt :: pre, w, post, by rw [hsplit]; rfl, ?_, ?_, ?_, ?_, ?_⟩
        · intro u hu
          rcases List.mem_cons.mp hu with h4 | h4
          · subst h4; simp [isStorageStmt, hkind]
          · exact hstor u h4
        · simp only [List.length_cons]
          omega
        · intro x hx
          rcases hnop x hx with h4 | h4
          · exact Or.inl h4
          · exact Or.inr h4
        · intro p hp
          rcases hlivep p hp with h4 | h4
          · rcases mem_snoc _ _ _ h4 with h5 | h5
            · exact Or.inl h5
            · refine Or.inr ?_
              rw [h5]
              simp only [List.length_cons] at *
              omega
          · exact Or.inr h4
        · intro p hp
          rcases hdeadp p hp with h4 | h4
          · exact Or.inl h4
          · exact Or.inr h4
      · obtain ⟨pre, w, post, hsplit, hstor, hlen, hnop, hlivep, hdeadp⟩ :=
          ih (i + 1) _ s' k (by exact h0) (by exact h1) (by exact h2)
            (by exact h3) h hk
        refine ⟨stmt :: pre, w, post, by rw [hsplit]; rfl, ?_, ?_, ?_, ?_, ?_⟩
        · intro u hu
          rcases List.mem_cons.mp hu with h4 | h4
          · subst h4; simp [isStorageStmt, hkind]
          · exact hstor u h4
        · simp only [List.length_cons]
          omega
        · intro x hx
          rcases hnop x hx with h4 | h4
          · exact Or.inl h4
          · exact Or.inr h4
        · intro p hp
          rcases hlivep p hp with h4 | h4
          · exact Or.inl h4
          · exact Or.inr h4
        · intro p hp
          rcases hdeadp p hp with h4 | h4
          · rcases mem_snoc _ _ _ h4 with h5 | h5
            · exact Or.inl h5
            · refine Or.inr ?_
              rw [h5]
              simp only [List.length_cons] at *
              omega
          · exact Or.inr h4
      · -- the read matched at index `i`, so `k = i`
        have hpres := scanAux_preserves_filled rest (i + 1) _ s' (by simp) h
        have hik : k = i := by
          have h5 : s'.starting_stmt = some i := by
            rw [hpres.2.2.2]
          rw [h5] at hk
          exact ((Option.some.injEq _ _).mp hk).symm
        have hidx := scanAux_new_indices rest (i + 1) _ s' h
        refine ⟨[], stmt, rest, rfl, by simp, by simp [hik], ?_, ?_, ?_⟩
        · intro x hx
          rcases hidx.1 x hx with h4 | h4
          · exact Or.inl h4
          · exact Or.inr (by omega)
        · intro p hp
          rcases hidx.2.1 p hp with h4 | h4
          · exact Or.inl h4
          · exact Or.inr (by omega)
        · intro p hp
          rcases hidx.2.2 p hp with h4 | h4
          · exact Or.inl h4
          · exact Or.inr (by omega)
      · exact absurd ⟨h0, h1, h2⟩ hnc

/-- A storage-marker step always succeeds and leaves the read slots alone. -/
theorem scanStep_storage (i : Nat) (u : Statement) (s : ScanState)
    (hu : isStorageStmt u = true) :
    ∃ s1, scanStep i u s = some s1 ∧ s1.local_tmp_s0 = s.local_tmp_s0 ∧
      s1.local_1 = s.local_1 ∧ s1.vf_s0 = s.vf_s0 := by
  obtain ⟨su, ku⟩ := u
  cases ku with
  | storageLive l => exact ⟨_, rfl, rfl, rfl, rfl⟩
  | storageDead l => exact ⟨_, rfl, rfl, rfl, rfl⟩
  | assign p rv => simp [isStorageStmt] at hu
  | setDiscriminant p v => simp [isStorageStmt] at hu
  | inlineAsm c => simp [isStorageStmt] at hu
  | nop => simp [isStorageStmt] at hu
  | otherStmtKind c => simp [isStorageStmt] at hu

/-- While the read slots are unfilled, a non-storage statement that fails
the read matcher aborts the scan step. -/
theorem scanStep_read_abort (i : Nat) (w : Statement) (s : ScanState)
    (h0 : s.local_tmp_s0 = none) (h1 : s.local_1 = none) (h2 : s.vf_s0 = none)
    (hm : match_get_variant_field w = none) (hw : isStorageStmt w = false) :
    scanStep i w s = none := by
  obtain ⟨si, k⟩ := w
  cases k with
  | storageLive l => simp [isStorageStmt] at hw
  | storageDead l => simp [isStorageStmt] at hw
  | assign p rv => simp [scanStep, h0, h1, h2, hm]
  | setDiscriminant p v => simp [scanStep, h0, h1, h2, hm]
  | inlineAsm c => simp [scanStep, h0, h1, h2, hm]
  | nop => simp [scanStep, h0, h1, h2, hm]
  | otherStmtKind c => simp [scanStep, h0, h1, h2, hm]

/-- Scanning a storage-only front followed by a statement that fails the
read matcher yields no candidate. -/
theorem scanAux_abort (B : List Statement) (w : Statement)
    (hm : match_get_variant_field w = none) (hw : isStorageStmt w = false) :
    ∀ (A : List Statement) (i : Nat) (s : ScanState),
      (∀ u ∈ A, isStorageStmt u = true) →
      s.local_tmp_s0 = none → s.local_1 = none → s.vf_s0 = none →
      scanAux i (A ++ w :: B) s = none := by
  intro A
  induction A with
  | nil =>
    intro i s _ h0 h1 h2
    have hstep := scanStep_read_abort i w s h0 h1 h2 hm hw
    simp only [List.nil_append, scanAux, hstep]
  | cons u A2 ih =>
    intro i s hstor h0 h1 h2
    obtain ⟨s1, hstep, e0, e1, e2⟩ :=
      scanStep_storage i u s (hstor u (List.mem_cons_self u A2))
    simp only [List.cons_append, scanAux, hstep]
    exact ih (i + 1) s1 (fun v hv => hstor v (List.mem_cons_of_mem u hv))
      (by rw [e0, h0]) (by rw [e1, h1]) (by rw [e2, h2])

/-- `swap_remove` only ever returns elements of the original list. -/
theorem swapRemove_subset {α : Type} (l : List α) (i : Nat) (x : α)
    (h : x ∈ swapRemove l i) : x ∈ l := by
  unfold swapRemove at h
  cases hlast : l.getLast? with
  | none => rw [hlast] at h; exact h
  | some last =>
    rw [hlast] at h
    have h1 : x ∈ l.set i last := (List.dropLast_sublist _).subset h
    rcases List.mem_or_eq_of_mem_set h1 with h2 | h2
    · exact h2
    · rw [h2]
      exact List.mem_of_getLast?_eq_some hlast

/-- Every pair produced by the storage pairing draws its live index from the
recorded lives and its dead index from the recorded deads. -/
theorem pairStorage_mem (t : Nat × Nat × Local) :
    ∀ (lives deads : List (Nat × Local)) (acc : List (Nat × Nat × Local)),
      t ∈ pairStorage lives deads acc →
      t ∈ acc ∨ ((t.1, t.2.2) ∈ lives ∧ ∃ l2, (t.2.1, l2) ∈ deads) := by
  intro lives
  induction lives with
  | nil =>
    intro deads acc h
    simp only [pairStorage] at h
    exact Or.inl h
  | cons lv rest ih =>
    intro deads acc h
    obtain ⟨live_idx, live_local⟩ := lv
    cases hr : rpositionLocal deads live_local with
    | none =>
      simp only [pairStorage, hr] at h
      rcases ih deads acc h with h1 | ⟨h1, h2⟩
      · exact Or.inl h1
      · exact Or.inr ⟨List.mem_cons_of_mem _ h1, h2⟩
    | some j =>
      cases hg : deads.get? j with
      | none =>
        simp only [pairStorage, hr, hg] at h
        rcases ih deads acc h with h1 | ⟨h1, h2⟩
        · exact Or.inl h1
        · exact Or.inr ⟨List.mem_cons_of_mem _ h1, h2⟩
      | some d =>
        obtain ⟨dead_idx, dead_local⟩ := d
        simp only [pairStorage, hr, hg] at h
        rcases ih (swapRemove deads j) (acc ++ [(live_idx, dead_idx, live_local)]) h with
          h1 | ⟨h1, l2, h2⟩
        · rcases mem_snoc _ _ _ h1 with h2 | h2
          · exact Or.inl h2
          · subst h2
            refine Or.inr ⟨List.mem_cons_self _ _, dead_local, ?_⟩
            rw [List.get?_eq_getElem?] at hg
            exact List.getElem?_mem hg
        · exact Or.inr ⟨List.mem_cons_of_mem _ h1, l2, swapRemove_subset _ _ _ h2⟩

/-- Every index added by the storage-removal extension is the live or dead
index of some recorded storage pair. -/
theorem extraStorage_mem (storage : List (Nat × Nat × Local))
    (cond : Nat × Nat × Local → Prop) [DecidablePred cond] :
    ∀ (acc : List Nat) (x : Nat),
      x ∈ storage.foldl
        (fun acc2 triple => if cond triple then acc2 ++ [triple.1, triple.2.1]
          else acc2) acc →
      x ∈ acc ∨ ∃ t, t ∈ storage ∧ (x = t.1 ∨ x = t.2.1) := by
  induction storage with
  | nil =>
    intro acc x h
    exact Or.inl h
  | cons t st ih =>
    intro acc x h
    simp only [List.foldl_cons] at h
    by_cases hc : cond t
    · rw [if_pos hc] at h
      rcases ih _ x h with h1 | ⟨t2, h2, h3⟩
      · rcases List.mem_append.mp h1 with h2 | h2
        · exact Or.inl h2
        · rcases List.mem_cons.mp h2 with h3 | h3
          · exact Or.inr ⟨t, List.mem_cons_self _ _, Or.inl h3⟩
          · exact Or.inr ⟨t, List.mem_cons_self _ _,
              Or.inr (List.mem_singleton.mp h3)⟩
      · exact Or.inr ⟨t2, List.mem_cons_of_mem _ h2, h3⟩
    · rw [if_neg hc] at h
      rcases ih _ x h with h1 | ⟨t2, h2, h3⟩
      · exact Or.inl h1
      · exact Or.inr ⟨t2, List.mem_cons_of_mem _ h2, h3⟩

/-- `extraStorageRemovals` draws every index from the storage pairs. -/
theorem extraStorageRemovals_mem (links : List (Local × Local))
    (storage : List (Nat × Nat × Local)) :
    ∀ (acc : List Nat) (x : Nat),
      x ∈ links.foldl
        (fun acc2 link => storage.foldl
          (fun acc3 triple =>
            if triple.2.2 = link.1 ∨ triple.2.2 = link.2 then
              acc3 ++ [triple.1, triple.2.1]
            else acc3) acc2) acc →
      x ∈ acc ∨ ∃ t, t ∈ storage ∧ (x = t.1 ∨ x = t.2.1) := by
  induction links with
  | nil => intro acc x h; exact Or.inl h
  | cons link rest ih =>
    intro acc x h
    simp only [List.foldl_cons] at h
    rcases ih _ x h with h1 | h1
    · exact extraStorage_mem storage
        (fun triple => triple.2.2 = link.1 ∨ triple.2.2 = link.2) acc x h1
    · exact Or.inr h1

/-- A list whose members all differ from `k` does not contain `k`. -/
theorem contains_eq_false_of_forall (l : List Nat) (k : Nat)
    (h : ∀ x ∈ l, x ≠ k) : l.contains k = false := by
  cases hc : l.contains k with
  | false => rfl
  | true =>
    have hmem : k ∈ l := List.mem_of_elem_eq_true hc
    exact absurd rfl (h k hmem)

/-- Storage markers survive `notNop`. -/
theorem notNop_of_storage (u : Statement) (hu : isStorageStmt u = true) :
    notNop u = true := by
  obtain ⟨si, k⟩ := u
  cases k <;> simp_all [isStorageStmt, notNop]

/-- The whole-value move written by the rewriter never matches the
variant-field read shape. -/
theorem mgvf_overwrite (si : SourceInfo) (l0 l1 : Local) :
    match_get_variant_field (overwriteStmt si l0 l1) = none := by
  simp [match_get_variant_field, overwriteStmt, Place.ofLocal,
    match_variant_field_place, Place.as_local]

/-- The whole-value move is not a storage marker. -/
theorem overwrite_not_storage (si : SourceInfo) (l0 l1 : Local) :
    isStorageStmt (overwriteStmt si l0 l1) = false := rfl

/-- A successful candidate exposes its final scan state: the recorded read
index, removal list, chain and storage pairs are those of the state. -/
theorem get_info_inv (stmts : List Statement) (info : ArmIdentityInfo)
    (h : get_arm_identity_info stmts = some info) :
    ∃ s2, scanAux 0 stmts initScan = some s2 ∧
      s2.starting_stmt = some info.stmt_to_overwrite ∧
      s2.nop_stmts = info.stmts_to_remove ∧
      s2.tmp_assigns = info.field_tmp_assignments ∧
      pairStorage s2.storage_live_stmts s2.storage_dead_stmts [] =
        info.storage_stmts := by
  unfold get_arm_identity_info at h
  cases hs : scanAux 0 stmts initScan with
  | none => simp [hs] at h
  | some s2 =>
    refine ⟨s2, rfl, ?_⟩
    simp only [hs] at h
    cases h0 : s2.local_tmp_s0 with
    | none => simp [h0] at h
    | some a0 =>
    cases h1 : s2.local_1 with
    | none => simp [h0, h1] at h
    | some a1 =>
    cases h2 : s2.vf_s0 with
    | none => simp [h0, h1, h2] at h
    | some a2 =>
    cases h3 : s2.local_tmp_s1 with
    | none => simp [h0, h1, h2, h3] at h
    | some a3 =>
    cases h4 : s2.local_0 with
    | none => simp [h0, h1, h2, h3, h4] at h
    | some a4 =>
    cases h5 : s2.vf_s1 with
    | none => simp [h0, h1, h2, h3, h4, h5] at h
    | some a5 =>
    cases h6 : s2.set_discr_local with
    | none => simp [h0, h1, h2, h3, h4, h5, h6] at h
    | some a6 =>
    cases h7 : s2.set_discr_var_idx with
    | none => simp [h0, h1, h2, h3, h4, h5, h6, h7] at h
    | some a7 =>
    cases h8 : s2.starting_stmt with
    | none => simp [h0, h1, h2, h3, h4, h5, h6, h7, h8] at h
    | some a8 =>
    cases h9 : s2.discr_stmt with
    | none => simp [h0, h1, h2, h3, h4, h5, h6, h7, h8, h9] at h
    | some a9 =>
    simp only [h0, h1, h2, h3, h4, h5, h6, h7, h8, h9, Option.some_bind,
      Option.some.injEq] at h
    subst h
    exact ⟨rfl, rfl, rfl, rfl⟩

/-- Filtering the mutated statements of an accepted rewrite splits them into
surviving storage markers followed by the new whole-value move, when the
front of the block is storage-only and the read index is not removed. -/
theorem overwrite_decomp (k : Nat) (si : SourceInfo) (l0 l1 : Local)
    (removal : List Nat) (B : List Statement) (w : Statement)
    (hk : removal.contains k = false) :
    ∀ (A : List Statement) (i : Nat),
      (∀ u ∈ A, isStorageStmt u = true) →
      i + A.length = k →
      ∃ A2 B2,
        (overwriteAndNop k si l0 l1 removal i (A ++ w :: B)).filter notNop =
          A2 ++ overwriteStmt si l0 l1 :: B2 ∧
        ∀ u ∈ A2, isStorageStmt u = true := by
  intro A
  induction A with
  | nil =>
    intro i _ hlen
    have hik : i = k := by simpa using hlen
    subst hik
    refine ⟨[], (overwriteAndNop i si l0 l1 removal (i + 1) B).filter notNop,
      ?_, by simp⟩
    simp only [List.nil_append, overwriteAndNop, if_pos rfl, hk,
      List.filter_cons]
    have hnn : notNop (overwriteStmt si l0 l1) = true := by
      simp [notNop, overwriteStmt]
    simp [hnn]
  | cons u A3 ih =>
    intro i hstor hlen
    have hik : i ≠ k := by
      simp only [List.length_cons] at hlen
      omega
    have hu := hstor u (List.mem_cons_self u A3)
    obtain ⟨A2, B2, heq, hA2⟩ := ih (i + 1)
      (fun v hv => hstor v (List.mem_cons_of_mem u hv))
      (by simp only [List.length_cons] at hlen; omega)
    cases hci : removal.contains i with
    | true =>
      refine ⟨A2, B2, ?_, hA2⟩
      have hnn : notNop ((if i = k then overwriteStmt si l0 l1 else u).make_nop) =
          false := by
        simp [notNop, Statement.make_nop]
      simp only [List.cons_append, overwriteAndNop, if_neg hik, hci,
        if_pos rfl, List.filter_cons, hnn]
      simpa using heq
    | false =>
      refine ⟨u :: A2, B2, ?_, ?_⟩
      · have hnn : notNop u = true := notNop_of_storage u hu
        simp only [List.cons_append, overwriteAndNop, if_neg hik, hci,
          List.filter_cons, hnn]
        simp [heq, hnn]
      · intro v hv
        rcases List.mem_cons.mp hv with h4 | h4
        · rw [h4]; exact hu
        · exact hA2 v h4

/-- Claim C8: running `SimplifyArmIdentity` a second time on a block it has
already simplified yields no further change: in the rewritten statement
sequence every statement before the new whole-value move is a storage
marker, and the move itself fails the read matcher, so the scan aborts with
no candidate and the second run returns the block unchanged. -/
theorem c8_idempotent (local_decls : Local → Ty) (bb bb' : BasicBlockData)
    (info : ArmIdentityInfo)
    (hinfo : get_arm_identity_info bb.statements = some info)
    (happ : optimization_applies info local_decls = some true)
    (hrw : simplifyArmIdentityBlock local_decls bb = some bb') :
    get_arm_identity_info bb'.statements = none ∧
      simplifyArmIdentityBlock local_decls bb' = some bb' := by
  obtain ⟨s2, hs, hstart, hnops, htmps, hpairs⟩ :=
    get_info_inv bb.statements info hinfo
  simp only [simplifyArmIdentityBlock, hinfo, happ] at hrw
  cases hget : bb.statements.get? info.stmt_to_overwrite with
  | none =>
    simp only [hget] at hrw
    exact Option.noConfusion hrw
  | some stmt0 =>
    obtain ⟨si0, k0⟩ := stmt0
    cases k0 with
    | assign pl rv =>
      simp only [hget, Option.some.injEq] at hrw
      obtain ⟨pre, w, post, hsplit, hstor, hlen, hnop, hlive, hdead⟩ :=
        scanAux_decomp bb.statements 0 initScan s2 info.stmt_to_overwrite
          rfl rfl rfl rfl hs hstart
      have hkrem : (info.stmts_to_remove ++
          extraStorageRemovals info.field_tmp_assignments
            info.storage_stmts).contains info.stmt_to_overwrite = false := by
        apply contains_eq_false_of_forall
        intro x hx
        rcases List.mem_append.mp hx with h1 | h1
        · rw [← hnops] at h1
          rcases hnop x h1 with h2 | h2
          · simp [initScan] at h2
          · exact h2
        · have h2 := extraStorageRemovals_mem info.field_tmp_assignments
            info.storage_stmts [] x h1
          rcases h2 with h3 | ⟨t, ht, hx2⟩
          · simp at h3
          · rw [← hpairs] at ht
            have h4 := pairStorage_mem t _ _ [] ht
            rcases h4 with h5 | ⟨h5, l2, h6⟩
            · simp at h5
            · rcases hx2 with rfl | rfl
              · rcases hlive (t.1, t.2.2) h5 with h7 | h7
                · simp [initScan] at h7
                · exact h7
              · rcases hdead (t.2.1, l2) h6 with h7 | h7
                · simp [initScan] at h7
                · exact h7
      rw [hsplit] at hrw
      obtain ⟨A2, B2, hshape, hA2⟩ := overwrite_decomp info.stmt_to_overwrite
        info.source_info info.local_0 info.local_1
        (info.stmts_to_remove ++ extraStorageRemovals
          info.field_tmp_assignments info.storage_stmts)
        post w hkrem pre 0 hstor hlen
      have hbstmts : bb'.statements =
          A2 ++ overwriteStmt info.source_info info.local_0 info.local_1 :: B2 := by
        rw [← hrw]
        exact hshape
      have habort := scanAux_abort B2
        (overwriteStmt info.source_info info.local_0 info.local_1)
        (mgvf_overwrite _ _ _) (overwrite_not_storage _ _ _)
        A2 0 initScan hA2 rfl rfl rfl
      have hnone : get_arm_identity_info bb'.statements = none := by
        rw [hbstmts]
        simp [get_arm_identity_info, habort]
      refine ⟨hnone, ?_⟩
      simp only [simplifyArmIdentityBlock, hnone]
    | setDiscriminant p v =>
      simp only [hget] at hrw
      exact Option.noConfusion hrw
    | storageLive l =>
      simp only [hget] at hrw
      exact Option.noConfusion hrw
    | storageDead l =>
      simp only [hget] at hrw
      exact Option.noConfusion hrw
    | inlineAsm c =>
      simp only [hget] at hrw
      exact Option.noConfusion hrw
    | nop =>
      simp only [hget] at hrw
      exact Option.noConfusion hrw
    | otherStmtKind c =>
      simp only [hget] at hrw
      exact Option.noConfusion hrw

/-- The candidate record the scanner produces for the plain idiom block. -/
def exPlainInfo : ArmIdentityInfo :=
  ⟨2, 1, ⟨0, 0, 0⟩, [(3, 2)], 3, 0, ⟨0, 0, 0⟩, 0, 0, 0, ⟨3⟩, [], [1, 2, 3]⟩

/-- Witness for C8: the simplified plain-idiom block scans to no candidate
and is unchanged by a second run. -/
theorem c8_witness :
    get_arm_identity_info [overwriteStmt ⟨3⟩ 0 1] = none ∧
      simplifyArmIdentityBlock declsAll
          ⟨[overwriteStmt ⟨3⟩ 0 1], ⟨⟨9⟩, .ret⟩, false⟩ =
        some ⟨[overwriteStmt ⟨3⟩ 0 1], ⟨⟨9⟩, .ret⟩, false⟩ := by
  have h := c8_idempotent declsAll exPlain_bb
    ⟨[overwriteStmt ⟨3⟩ 0 1], ⟨⟨9⟩, .ret⟩, false⟩ exPlainInfo
    (by decide) (by decide) (by decide)
  exact h

end SimplifyTry
